import Mathlib

/-!
Verification of the match-prediction settlement engine of the Dave.Sport
Telegram bot repository.  The definitions below are a shallow embedding of
the storage state (SQLite tables `users`, `matches`, `predictions`) and of
the operations in `src/backend/service.py` (`close_match`, `resolve_match`,
`add_prediction`, `get_leaderboard_global`, `get_leaderboard_predictions`)
together with the HTTP wrapper `admin_resolve_match` of `src/backend/app.py`.
Statuses and choice tags are kept as strings, exactly as stored in SQL.
-/

/-- A row of the `users` table (fields relevant to settlement/ranking). -/
structure UserRow where
  user_id : Int
  coin_balance : Int
deriving DecidableEq

/-- A row of the `matches` table (fields relevant to settlement). -/
structure MatchRow where
  match_id : Int
  team_a : String
  team_b : String
  status : String
  result : Option String
  score_a : Option Int
  score_b : Option Int
deriving DecidableEq

/-- A row of the `predictions` table. -/
structure PredRow where
  user_id : Int
  match_id : Int
  prediction : String
  pred_score_a : Option Int
  pred_score_b : Option Int
  status : String
deriving DecidableEq

/-- The storage state: the three tables, each as a list of rows. -/
structure DB where
  users : List UserRow
  matchRows : List MatchRow
  preds : List PredRow
deriving DecidableEq

/-- `SELECT * FROM matches WHERE match_id = ?` (fetchone). -/
def getMatch (db : DB) (mid : Int) : Option MatchRow :=
  db.matchRows.find? fun m => m.match_id == mid

/-- The status of the match with the given id, if it exists. -/
def matchStatus (db : DB) (mid : Int) : Option String :=
  (getMatch db mid).map (·.status)

/-- `SELECT 1 FROM predictions WHERE user_id = ? AND match_id = ?`. -/
def hasPrediction (db : DB) (uid mid : Int) : Bool :=
  db.preds.any fun p => p.user_id == uid && p.match_id == mid

/-- Coin balance of a user, `0` when the user row is absent
(`int(row.get("coin_balance") or 0) if row else 0`). -/
def balanceOf (db : DB) (uid : Int) : Int :=
  match db.users.find? (fun u => u.user_id == uid) with
  | some u => u.coin_balance
  | none => 0

/-- Sum of all coin balances, used to state reward conservation. -/
def totalCoins (db : DB) : Int :=
  (db.users.map (·.coin_balance)).sum

/-- `close_match` (service.py:263): `UPDATE matches SET status = 'CLOSED'
WHERE match_id = ? AND status = 'OPEN'`. -/
def close_match (db : DB) (mid : Int) : DB :=
  { db with
    matchRows := db.matchRows.map fun m =>
      if m.match_id = mid ∧ m.status = "OPEN" then { m with status := "CLOSED" } else m }

/-- The per-prediction win test of `resolve_match` (service.py:296-301):
won iff the stored choice equals the winner code, or the choice is `SCORE`,
both final scores were supplied, and the stored score pair matches exactly. -/
def predWon (p : PredRow) (winner_code : String) (score_a score_b : Option Int) : Bool :=
  if p.prediction = winner_code then true
  else if p.prediction = "SCORE" ∧ score_a ≠ none ∧ score_b ≠ none then
    decide (p.pred_score_a = score_a ∧ p.pred_score_b = score_b)
  else false

/-- The status string written for a graded prediction. -/
def gradeStatus (p : PredRow) (wc : String) (sa sb : Option Int) : String :=
  if predWon p wc sa sb then "WON" else "LOST"

/-- One `UPDATE predictions SET status = ? WHERE user_id = ? AND match_id = ?`
step of the resolution loop, applied to a single stored row `q` for the
fetched prediction `p`. -/
def gradeStep (mid : Int) (wc : String) (sa sb : Option Int) (p : PredRow) (q : PredRow) : PredRow :=
  if q.user_id = p.user_id ∧ q.match_id = mid then { q with status := gradeStatus p wc sa sb } else q

/-- The sequence of status `UPDATE`s issued by the resolution loop, in the
order the fetched predictions are iterated. -/
def applyGrades (mid : Int) (wc : String) (sa sb : Option Int)
    (fetched : List PredRow) (stored : List PredRow) : List PredRow :=
  fetched.foldl (fun ps p => ps.map (gradeStep mid wc sa sb p)) stored

/-- One `UPDATE users SET coin_balance = coin_balance + ? WHERE user_id = ?`
step of the reward loop. -/
def creditStep (reward : Int) (uid : Int) (u : UserRow) : UserRow :=
  if u.user_id = uid then { u with coin_balance := u.coin_balance + reward } else u

/-- The reward loop: one balance update per winner entry, in order. -/
def creditAll (reward : Int) (winners : List Int) (users : List UserRow) : List UserRow :=
  winners.foldl (fun us uid => us.map (creditStep reward uid)) users

/-- `resolve_match` (service.py:278-316): unconditionally marks the match
`RESOLVED` with the given result and scores, grades every prediction of the
match (`WON`/`LOST`), credits each winner by `reward` when `reward` is
truthy and the winner list nonempty, and returns the winner ids. -/
def resolve_match (db : DB) (mid : Int) (winner_code : String)
    (score_a score_b : Option Int) (reward : Int) : List Int × DB :=
  let matchRows' := db.matchRows.map fun m =>
    if m.match_id = mid then
      { m with status := "RESOLVED", result := some winner_code,
               score_a := score_a, score_b := score_b }
    else m
  let fetched := db.preds.filter fun p => p.match_id == mid
  let winners := (fetched.filter fun p => predWon p winner_code score_a score_b).map (·.user_id)
  let preds' := applyGrades mid winner_code score_a score_b fetched db.preds
  let users' :=
    if reward ≠ 0 ∧ winners ≠ [] then creditAll reward winners db.users else db.users
  (winners, { users := users', matchRows := matchRows', preds := preds' })

/-- Response shape of `POST /admin/matches/{match_id}/resolve`. -/
inductive ResolveHttp where
  | ok (winners : List Int) (count : Nat)
  | not_found
deriving DecidableEq

/-- `admin_resolve_match` (app.py:462-465): calls the service and returns
`{"winners": winners, "count": len(winners)}` with no existence check. -/
def admin_resolve_match (db : DB) (mid : Int) (winner_code : String)
    (score_a score_b : Option Int) (reward : Int) : ResolveHttp × DB :=
  let r := resolve_match db mid winner_code score_a score_b reward
  (ResolveHttp.ok r.1 r.1.length, r.2)

/-- Outcome of a prediction placement. -/
inductive PlaceOutcome where
  | success
  | match_closed
  | already_predicted
deriving DecidableEq

/-- `add_prediction` (service.py:319-334): raises `match_closed` when the
match is missing or not `OPEN`, `already_predicted` when a prediction row
exists for `(user_id, match_id)`, otherwise inserts one row whose status
takes the schema default `PENDING`. -/
def add_prediction (db : DB) (uid mid : Int) (prediction : String)
    (score_a score_b : Option Int) : PlaceOutcome × DB :=
  match getMatch db mid with
  | none => (PlaceOutcome.match_closed, db)
  | some m =>
    if m.status ≠ "OPEN" then (PlaceOutcome.match_closed, db)
    else if hasPrediction db uid mid then (PlaceOutcome.already_predicted, db)
    else (PlaceOutcome.success,
      { db with preds := db.preds ++ [⟨uid, mid, prediction, score_a, score_b, "PENDING"⟩] })

/-- The `ORDER BY coin_balance DESC, user_id ASC` comparison. -/
def coinLe (u v : UserRow) : Bool :=
  decide (v.coin_balance < u.coin_balance ∨
    (u.coin_balance = v.coin_balance ∧ u.user_id ≤ v.user_id))

/-- All users in the global-leaderboard order. -/
def globalOrder (db : DB) : List UserRow :=
  db.users.mergeSort coinLe

/-- One entry of the global leaderboard page. -/
structure GlobalItem where
  rank : Nat
  user_id : Int
  coins : Int
deriving DecidableEq

/-- Response of the global leaderboard. -/
structure GlobalBoard where
  items : List GlobalItem
  total_users : Nat
  current_user_rank : Option Nat
deriving DecidableEq

/-- `get_leaderboard_global` (service.py:423-455): pages the users ordered
by `(coin_balance DESC, user_id ASC)` at offset `(page - 1) * limit`, and
reports the caller rank as one plus the number of users with a strictly
greater balance (skipped when the caller id is falsy). -/
def get_leaderboard_global (db : DB) (page limit : Nat) (uid : Option Int) : GlobalBoard :=
  let offset := (page - 1) * limit
  let total_users := db.users.length
  let rows := ((globalOrder db).drop offset).take limit
  let current_rank : Option Nat :=
    match uid with
    | some u =>
      if u = 0 then none
      else
        let coins := balanceOf db u
        let higher := (db.users.filter fun v => coins < v.coin_balance).length
        if total_users = 0 then none else some (higher + 1)
    | none => none
  { items := rows.enum.map fun e => ⟨offset + e.1 + 1, e.2.user_id, e.2.coin_balance⟩,
    total_users := total_users,
    current_user_rank := current_rank }

/-- A prediction row counted as settled (`status IN ('WON','LOST')`). -/
def isSettled (p : PredRow) : Bool :=
  p.status == "WON" || p.status == "LOST"

/-- `SUM(CASE WHEN p.status = 'WON' THEN 1 ELSE 0 END)` for one user. -/
def winsOf (db : DB) (u : Int) : Nat :=
  (db.preds.filter fun p => p.user_id == u && p.status == "WON").length

/-- `SUM(CASE WHEN p.status IN ('WON','LOST') THEN 1 ELSE 0 END)` for one user. -/
def settledOf (db : DB) (u : Int) : Nat :=
  (db.preds.filter fun p => p.user_id == u && isSettled p).length

/-- The win rate `wins * 1.0 / total` of one user, as a rational. -/
def rateOf (db : DB) (u : Int) : ℚ :=
  (winsOf db u : ℚ) / (settledOf db u : ℚ)

/-- The `ORDER BY (win rate) DESC, total DESC, user_id ASC` comparison. -/
def predLe (db : DB) (u v : Int) : Bool :=
  decide (rateOf db v < rateOf db u ∨
    (rateOf db u = rateOf db v ∧
      (settledOf db v < settledOf db u ∨
        (settledOf db u = settledOf db v ∧ u ≤ v))))

/-- The group keys of the leaderboard query: users joined to predictions
having at least 3 settled predictions. -/
def eligible_users (db : DB) : List Int :=
  (db.users.map (·.user_id)).filter fun u => decide (3 ≤ settledOf db u)

/-- All eligible users in the prediction-leaderboard order. -/
def predOrder (db : DB) : List Int :=
  (eligible_users db).mergeSort (predLe db)

/-- Group keys of the rank subquery (service.py:495-507), which aggregates
predictions without joining the users table: the distinct user ids among
settled predictions. -/
def settled_pred_users (db : DB) : List Int :=
  ((db.preds.filter isSettled).map (·.user_id)).dedup

/-- One entry of the prediction leaderboard page. -/
structure PredItem where
  rank : Nat
  user_id : Int
  wins : Nat
  total : Nat
deriving DecidableEq

/-- Response of the prediction leaderboard. -/
structure PredBoard where
  items : List PredItem
  current_user_rank : Option Nat
deriving DecidableEq

/-- `get_leaderboard_predictions` (service.py:458-529): pages the users
having at least 3 settled predictions ordered by win rate descending,
total settled descending, user id ascending; when the caller id is truthy
and the caller has at least 3 settled predictions, the caller rank is one
plus the number of grouped prediction rows with strictly higher rate, or
equal rate and strictly higher total. -/
def get_leaderboard_predictions (db : DB) (page limit : Nat) (uid : Option Int) : PredBoard :=
  let offset := (page - 1) * limit
  let rows := ((predOrder db).drop offset).take limit
  let current_rank : Option Nat :=
    match uid with
    | some u =>
      if u = 0 then none
      else if 3 ≤ settledOf db u then
        let higher := ((settled_pred_users db).filter fun v =>
          decide (3 ≤ settledOf db v) &&
          decide (rateOf db u < rateOf db v ∨
            (rateOf db v = rateOf db u ∧ settledOf db u < settledOf db v))).length
        some (higher + 1)
      else none
    | none => none
  { items := rows.enum.map fun e => ⟨offset + e.1 + 1, e.2, winsOf db e.2, settledOf db e.2⟩,
    current_user_rank := current_rank }

/-! ### Generic lemmas about the update loops -/

/-- A fold of whole-table `map` updates equals a single `map` folding the
updates over each row. -/
theorem foldl_map_eq_map_foldl {α β : Type} (step : β → α → α) :
    ∀ (us : List β) (l : List α),
      us.foldl (fun acc u => acc.map (step u)) l
        = l.map fun a => us.foldl (fun x u => step u x) a
  | [], l => by simp
  | u :: us, l => by
    rw [List.foldl_cons, foldl_map_eq_map_foldl step us (l.map (step u)), List.map_map]
    rfl

theorem gradeStep_ne_user {mid : Int} {wc : String} {sa sb : Option Int} {p q : PredRow}
    (h : q.user_id ≠ p.user_id) : gradeStep mid wc sa sb p q = q := by
  rw [gradeStep, if_neg]
  exact fun hc => h hc.1

theorem gradeStep_ne_mid {mid : Int} {wc : String} {sa sb : Option Int} {p q : PredRow}
    (h : q.match_id ≠ mid) : gradeStep mid wc sa sb p q = q := by
  rw [gradeStep, if_neg]
  exact fun hc => h hc.2

theorem gradeFold_of_not_mem {mid : Int} {wc : String} {sa sb : Option Int} :
    ∀ (fetched : List PredRow) (q : PredRow),
      q.user_id ∉ fetched.map (·.user_id) →
      fetched.foldl (fun x p => gradeStep mid wc sa sb p x) q = q
  | [], q, _ => rfl
  | p :: rest, q, h => by
    have h1 : q.user_id ≠ p.user_id := fun hc => h (by rw [List.map_cons]; exact hc ▸ List.mem_cons_self _ _)
    have h2 : q.user_id ∉ rest.map (·.user_id) := fun hc => h (by rw [List.map_cons]; exact List.mem_cons_of_mem _ hc)
    rw [List.foldl_cons, gradeStep_ne_user h1]
    exact gradeFold_of_not_mem rest q h2

theorem gradeFold_of_ne_mid {mid : Int} {wc : String} {sa sb : Option Int} :
    ∀ (fetched : List PredRow) (q : PredRow),
      q.match_id ≠ mid →
      fetched.foldl (fun x p => gradeStep mid wc sa sb p x) q = q
  | [], _, _ => rfl
  | _ :: rest, q, h => by
    rw [List.foldl_cons, gradeStep_ne_mid h]
    exact gradeFold_of_ne_mid rest q h

theorem gradeFold_unique {mid : Int} {wc : String} {sa sb : Option Int} :
    ∀ (fetched : List PredRow) (q p0 : PredRow),
      (fetched.map (·.user_id)).Nodup → p0 ∈ fetched → p0.user_id = q.user_id →
      q.match_id = mid →
      fetched.foldl (fun x p => gradeStep mid wc sa sb p x) q
        = { q with status := gradeStatus p0 wc sa sb }
  | [], q, p0, _, hmem, _, _ => absurd hmem (List.not_mem_nil p0)
  | p :: rest, q, p0, hnd, hmem, huid, hmid => by
    rw [List.map_cons, List.nodup_cons] at hnd
    by_cases hpq : q.user_id = p.user_id
    · have hp0 : p0 = p := by
        rcases List.mem_cons.1 hmem with h | h
        · exact h
        · exfalso
          apply hnd.1
          have hmm : p0.user_id ∈ List.map (fun x => x.user_id) rest :=
            List.mem_map_of_mem (fun x => x.user_id) h
          rwa [huid, hpq] at hmm
      rw [List.foldl_cons, gradeStep, if_pos ⟨hpq, hmid⟩, hp0]
      have hq' : ({ q with status := gradeStatus p wc sa sb } : PredRow).user_id
          ∉ rest.map (·.user_id) := by
        show q.user_id ∉ _
        rw [hpq]
        exact hnd.1
      exact gradeFold_of_not_mem rest _ hq'
    · have hp0 : p0 ∈ rest := by
        rcases List.mem_cons.1 hmem with h | h
        · exact absurd (h ▸ huid) fun hc => hpq hc.symm
        · exact h
      rw [List.foldl_cons, gradeStep_ne_user hpq]
      exact gradeFold_unique rest q p0 hnd.2 hp0 huid hmid

/-- With distinct user ids among the match's predictions (the
one-prediction-per-user invariant), the resolution loop grades each stored
row of the match by its own win test and leaves other rows unchanged. -/
theorem resolve_preds_eq (db : DB) (mid : Int) (wc : String) (sa sb : Option Int) (rw : Int)
    (h : ((db.preds.filter fun p => p.match_id == mid).map (·.user_id)).Nodup) :
    (resolve_match db mid wc sa sb rw).2.preds =
      db.preds.map fun q =>
        if q.match_id = mid then { q with status := gradeStatus q wc sa sb } else q := by
  have h0 : (resolve_match db mid wc sa sb rw).2.preds
      = applyGrades mid wc sa sb (db.preds.filter fun p => p.match_id == mid) db.preds := rfl
  rw [h0, applyGrades, foldl_map_eq_map_foldl]
  apply List.map_congr_left
  intro q hq
  by_cases hm : q.match_id = mid
  · have hqf : q ∈ db.preds.filter fun p => p.match_id == mid :=
      List.mem_filter.2 ⟨hq, by simp [hm]⟩
    rw [gradeFold_unique _ q q h hqf rfl hm, if_pos hm]
  · rw [gradeFold_of_ne_mid _ q hm, if_neg hm]

theorem creditStep_user_id (rw uid : Int) (u : UserRow) :
    (creditStep rw uid u).user_id = u.user_id := by
  rw [creditStep]; split <;> rfl

theorem creditFold_eq (rw : Int) :
    ∀ (ws : List Int) (x : UserRow),
      ws.foldl (fun y uid => creditStep rw uid y) x
        = { x with coin_balance := x.coin_balance + rw * (ws.count x.user_id : Int) }
  | [], x => by simp
  | w :: ws, x => by
    rw [List.foldl_cons]
    by_cases h : x.user_id = w
    · rw [creditStep, if_pos h, creditFold_eq rw ws _]
      simp only [List.count_cons, h, beq_self_eq_true, if_pos]
      congr 1
      push_cast
      ring
    · rw [creditStep, if_neg h, creditFold_eq rw ws x]
      have : (w == x.user_id) = false := by simpa using fun hc => h hc.symm
      simp [List.count_cons, this]

/-- The reward loop as a single `map` over the users table. -/
theorem creditAll_eq (rw : Int) (ws : List Int) (users : List UserRow) :
    creditAll rw ws users
      = users.map fun x => { x with coin_balance := x.coin_balance + rw * (ws.count x.user_id : Int) } := by
  rw [creditAll, foldl_map_eq_map_foldl]
  exact List.map_congr_left fun x _ => creditFold_eq rw ws x

theorem find?_map_of_pred_pres {α : Type} (f : α → α) (p : α → Bool)
    (hp : ∀ x, p (f x) = p x) (l : List α) :
    (l.map f).find? p = (l.find? p).map f := by
  rw [List.find?_map]
  have hpf : (p ∘ f) = p := funext fun x => hp x
  rw [hpf]

/-- List-level balance lookup used to reason about the users table. -/
def lookupBal (users : List UserRow) (uid : Int) : Int :=
  match users.find? (fun u => u.user_id == uid) with
  | some u => u.coin_balance
  | none => 0

theorem balanceOf_eq_lookupBal (db : DB) (uid : Int) :
    balanceOf db uid = lookupBal db.users uid := rfl

theorem lookupBal_creditAll (rw : Int) (ws : List Int) (users : List UserRow) (u : Int) :
    lookupBal (creditAll rw ws users) u
      = lookupBal users u
        + (if u ∈ users.map (·.user_id) then rw * (ws.count u : Int) else 0) := by
  have hfm := find?_map_of_pred_pres
    (fun x : UserRow => { x with coin_balance := x.coin_balance + rw * (ws.count x.user_id : Int) })
    (fun x => x.user_id == u) (fun x => rfl) users
  rw [lookupBal, creditAll_eq, hfm]
  cases hfind : users.find? (fun x => x.user_id == u) with
  | none =>
    have hnotin : u ∉ users.map (·.user_id) := by
      intro hc
      rcases List.mem_map.1 hc with ⟨x, hx, hxu⟩
      exact (List.find?_eq_none.1 hfind x hx) (by simp [hxu])
    rw [lookupBal, hfind, if_neg hnotin]
    rfl
  | some x0 =>
    have hx0u : x0.user_id = u := by simpa using List.find?_some hfind
    have hin : u ∈ users.map (·.user_id) :=
      hx0u ▸ List.mem_map_of_mem _ (List.mem_of_find?_eq_some hfind)
    rw [lookupBal, hfind, if_pos hin]
    show x0.coin_balance + rw * (ws.count x0.user_id : Int) = _
    rw [hx0u]

theorem creditAll_map_user_id (rw : Int) (ws : List Int) (users : List UserRow) :
    (creditAll rw ws users).map (·.user_id) = users.map (·.user_id) := by
  rw [creditAll_eq, List.map_map]
  rfl

theorem sum_indicator_zero (w : Int) :
    ∀ (ids : List Int), w ∉ ids →
      (ids.map fun i => if w == i then (1 : ℕ) else 0).sum = 0 := by
  intro ids hw
  apply List.sum_eq_zero
  intro x hx
  rcases List.mem_map.1 hx with ⟨i, hi, hix⟩
  have : ¬(w == i) = true := by
    simp only [beq_iff_eq]
    exact fun hc => hw (hc ▸ hi)
  rw [if_neg this] at hix
  exact hix.symm

theorem sum_indicator_one (w : Int) :
    ∀ (ids : List Int), ids.Nodup → w ∈ ids →
      (ids.map fun i => if w == i then (1 : ℕ) else 0).sum = 1
  | [], _, hw => absurd hw (List.not_mem_nil w)
  | i :: ids, hnd, hw => by
    rw [List.nodup_cons] at hnd
    rw [List.map_cons, List.sum_cons]
    by_cases h : w = i
    · rw [if_pos (by simp [h]), sum_indicator_zero w ids (h ▸ hnd.1)]
    · rw [if_neg (by simp [h])]
      have hw' : w ∈ ids := by
        rcases List.mem_cons.1 hw with hc | hc
        · exact absurd hc h
        · exact hc
      rw [sum_indicator_one w ids hnd.2 hw']

theorem sum_count {ids : List Int} (hN : ids.Nodup) :
    ∀ (ws : List Int), (∀ x ∈ ws, x ∈ ids) →
      (ids.map fun i => ws.count i).sum = ws.length
  | [], _ => by
    apply List.sum_eq_zero
    intro x hx
    rcases List.mem_map.1 hx with ⟨i, _, hix⟩
    rw [List.count_nil] at hix
    exact hix.symm
  | w :: ws, h => by
    have h1 : ∀ x ∈ ws, x ∈ ids := fun x hx => h x (List.mem_cons_of_mem _ hx)
    have hw : w ∈ ids := h w (List.mem_cons_self _ _)
    have hsplit : (ids.map fun i => (w :: ws).count i).sum
        = (ids.map fun i => ws.count i + if w == i then 1 else 0).sum := by
      congr 1
      exact List.map_congr_left fun i _ => List.count_cons i w ws
    rw [hsplit, List.sum_map_add, sum_count hN ws h1, sum_indicator_one w ids hN hw,
      List.length_cons]

theorem totalCoins_creditAll (rw : Int) (ws : List Int) (users : List UserRow)
    (hN : (users.map (·.user_id)).Nodup)
    (hsub : ∀ w ∈ ws, w ∈ users.map (·.user_id)) :
    ((creditAll rw ws users).map (·.coin_balance)).sum
      = (users.map (·.coin_balance)).sum + rw * (ws.length : Int) := by
  rw [creditAll_eq, List.map_map]
  have hfun : ((fun u : UserRow => u.coin_balance) ∘
      fun x => { x with coin_balance := x.coin_balance + rw * (ws.count x.user_id : Int) })
      = fun x : UserRow => x.coin_balance + rw * (ws.count x.user_id : Int) := rfl
  rw [hfun, List.sum_map_add]
  congr 1
  have hmm : (users.map fun x : UserRow => rw * (ws.count x.user_id : Int)).sum
      = rw * (users.map fun x : UserRow => (ws.count x.user_id : Int)).sum := by
    rw [← List.sum_map_mul_left]
  rw [hmm]
  congr 1
  have h4 : (users.map fun x : UserRow => (ws.count x.user_id : Int))
      = (((users.map (·.user_id)).map fun i => ws.count i).map Nat.cast) := by
    rw [List.map_map, List.map_map]
    rfl
  rw [h4, ← Nat.cast_list_sum, sum_count hN ws hsub]

/-! ### Behaviour of `close_match` -/

theorem close_match_getMatch (db : DB) (mid mid2 : Int) :
    getMatch (close_match db mid) mid2
      = (getMatch db mid2).map fun m =>
          if m.match_id = mid ∧ m.status = "OPEN" then { m with status := "CLOSED" } else m := by
  exact find?_map_of_pred_pres
    (fun m => if m.match_id = mid ∧ m.status = "OPEN" then { m with status := "CLOSED" } else m)
    (fun m => m.match_id == mid2)
    (fun m => by by_cases h : m.match_id = mid ∧ m.status = "OPEN" <;> simp [h]) db.matchRows

/-- C9: `close_match` flips `OPEN` to `CLOSED` for the addressed match and
leaves every match row unchanged in all other cases (non-`OPEN` status,
including `RESOLVED`; missing match; other match ids); users and
predictions are untouched. -/
theorem C9_conditional_close (db : DB) (mid : Int) :
    ((close_match db mid).users = db.users)
    ∧ ((close_match db mid).preds = db.preds)
    ∧ (∀ m, getMatch db mid = some m → m.status = "OPEN" →
        getMatch (close_match db mid) mid = some { m with status := "CLOSED" })
    ∧ (∀ m, getMatch db mid = some m → m.status ≠ "OPEN" →
        getMatch (close_match db mid) mid = some m)
    ∧ (getMatch db mid = none → getMatch (close_match db mid) mid = none)
    ∧ (∀ mid2, mid2 ≠ mid → getMatch (close_match db mid) mid2 = getMatch db mid2) := by
  refine ⟨rfl, rfl, ?_, ?_, ?_, ?_⟩
  · intro m hm hopen
    have hid : m.match_id = mid := by simpa using List.find?_some hm
    rw [close_match_getMatch, hm, Option.map_some', if_pos ⟨hid, hopen⟩]
  · intro m hm hnopen
    rw [close_match_getMatch, hm, Option.map_some', if_neg (fun hc => hnopen hc.2)]
  · intro hnone
    rw [close_match_getMatch, hnone, Option.map_none']
  · intro mid2 hne
    rw [close_match_getMatch]
    cases hg : getMatch db mid2 with
    | none => rfl
    | some m =>
      have hid : m.match_id = mid2 := by simpa using List.find?_some hg
      rw [Option.map_some', if_neg (fun hc => hne (by rw [← hid]; exact hc.1))]

def dbC9 : DB :=
  ⟨[], [⟨1, "T1", "T2", "RESOLVED", some "A", some 2, some 0⟩,
        ⟨2, "T3", "T4", "OPEN", none, none, none⟩], []⟩

/-- Witness for C9 at a concrete state: closing a `RESOLVED` match leaves
its row (status included) unchanged. -/
theorem C9_conditional_close_witness :
    getMatch (close_match dbC9 1) 1
      = some ⟨1, "T1", "T2", "RESOLVED", some "A", some 2, some 0⟩ :=
  (C9_conditional_close dbC9 1).2.2.2.1
    ⟨1, "T1", "T2", "RESOLVED", some "A", some 2, some 0⟩ (by decide) (by decide)

/-- C10: placing a prediction on a nonexistent match fails with the same
`match_closed` outcome used for non-`OPEN` matches, inserting nothing. -/
theorem C10_place_unknown_match (db : DB) (uid mid : Int) (c : String) (sa sb : Option Int)
    (h : ∀ m ∈ db.matchRows, m.match_id ≠ mid) :
    add_prediction db uid mid c sa sb = (PlaceOutcome.match_closed, db) := by
  have hg : getMatch db mid = none :=
    List.find?_eq_none.2 fun m hm => by simp [h m hm]
  rw [add_prediction, hg]

def dbC10 : DB := ⟨[], [⟨1, "T1", "T2", "OPEN", none, none, none⟩], []⟩

/-- Witness for C10: placing on the absent match id 9 is rejected exactly
like a closed match and leaves the state unchanged. -/
theorem C10_place_unknown_match_witness :
    add_prediction dbC10 7 9 "A" none none = (PlaceOutcome.match_closed, dbC10) :=
  C10_place_unknown_match dbC10 7 9 "A" none none (by decide)

/-- Case analysis of `add_prediction` as a conditional expression. -/
theorem add_prediction_eq (db : DB) (uid mid : Int) (c : String) (sa sb : Option Int) :
    add_prediction db uid mid c sa sb
      = if matchStatus db mid = some "OPEN" then
          (if hasPrediction db uid mid then (PlaceOutcome.already_predicted, db)
           else (PlaceOutcome.success,
             { db with preds := db.preds ++ [⟨uid, mid, c, sa, sb, "PENDING"⟩] }))
        else (PlaceOutcome.match_closed, db) := by
  rw [add_prediction, matchStatus]
  cases hg : getMatch db mid with
  | none => simp
  | some m =>
    by_cases hs : m.status = "OPEN" <;> simp [hs]

/-- C5: `add_prediction` fails with `match_closed` exactly when the match is
missing or not `OPEN`, with `already_predicted` exactly when the match is
`OPEN` but a prediction for `(user, match)` exists; every failure leaves the
state unchanged, and success appends exactly one `PENDING` row. -/
theorem C5_place_errors (db : DB) (uid mid : Int) (c : String) (sa sb : Option Int) :
    ((add_prediction db uid mid c sa sb).1 = PlaceOutcome.match_closed ↔
        ¬ matchStatus db mid = some "OPEN")
    ∧ ((add_prediction db uid mid c sa sb).1 = PlaceOutcome.already_predicted ↔
        (matchStatus db mid = some "OPEN" ∧ hasPrediction db uid mid = true))
    ∧ ((add_prediction db uid mid c sa sb).1 = PlaceOutcome.success ↔
        (matchStatus db mid = some "OPEN" ∧ hasPrediction db uid mid = false))
    ∧ ((add_prediction db uid mid c sa sb).1 ≠ PlaceOutcome.success →
        (add_prediction db uid mid c sa sb).2 = db)
    ∧ ((add_prediction db uid mid c sa sb).1 = PlaceOutcome.success →
        (add_prediction db uid mid c sa sb).2
          = { db with preds := db.preds ++ [⟨uid, mid, c, sa, sb, "PENDING"⟩] }) := by
  rw [add_prediction_eq]
  by_cases h1 : matchStatus db mid = some "OPEN"
  · cases h2 : hasPrediction db uid mid <;> simp [h1, h2]
  · simp [h1]

def dbC5 : DB :=
  ⟨[], [⟨1, "T1", "T2", "OPEN", none, none, none⟩,
        ⟨2, "T3", "T4", "CLOSED", none, none, none⟩],
   [⟨7, 1, "A", none, none, "PENDING"⟩]⟩

/-- Witness for C5: on a concrete state, a duplicate prediction on the open
match yields `already_predicted`. -/
theorem C5_place_errors_witness :
    (add_prediction dbC5 7 1 "B" none none).1 = PlaceOutcome.already_predicted ↔
      (matchStatus dbC5 1 = some "OPEN" ∧ hasPrediction dbC5 7 1 = true) :=
  (C5_place_errors dbC5 7 1 "B" none none).2.1

def dbC6 : DB := ⟨[], [⟨1, "T1", "T2", "OPEN", none, none, none⟩], []⟩

/-- Counterexample to C6 as stated: an unknown choice tag `"XYZ"` and a
`SCORE` choice with missing score components are both accepted and stored;
no `InvalidChoice`/`InvalidScore` rejection exists in the code. -/
theorem C6_counterexample :
    (add_prediction dbC6 7 1 "XYZ" none none).1 = PlaceOutcome.success
    ∧ (add_prediction dbC6 7 1 "XYZ" none none).2.preds
        = [⟨7, 1, "XYZ", none, none, "PENDING"⟩]
    ∧ (add_prediction dbC6 8 1 "SCORE" none none).1 = PlaceOutcome.success
    ∧ (add_prediction dbC6 8 1 "SCORE" none none).2.preds
        = [⟨8, 1, "SCORE", none, none, "PENDING"⟩] := by decide

/-- C6 (amended): `add_prediction` performs no validation of the choice tag
or of score presence: for an `OPEN` match with no prior prediction, any
choice string (unknown tags and `SCORE` without scores included) is
accepted and inserted as a `PENDING` row. -/
theorem C6_no_input_validation (db : DB) (uid mid : Int) (c : String) (sa sb : Option Int)
    (h1 : matchStatus db mid = some "OPEN") (h2 : hasPrediction db uid mid = false) :
    add_prediction db uid mid c sa sb
      = (PlaceOutcome.success,
         { db with preds := db.preds ++ [⟨uid, mid, c, sa, sb, "PENDING"⟩] }) := by
  rw [add_prediction_eq, if_pos h1, h2]
  simp

/-- Witness for the amended C6. -/
theorem C6_no_input_validation_witness :
    add_prediction dbC6 7 1 "XYZ" none none
      = (PlaceOutcome.success,
         { dbC6 with preds := dbC6.preds ++ [⟨7, 1, "XYZ", none, none, "PENDING"⟩] }) :=
  C6_no_input_validation dbC6 7 1 "XYZ" none none (by decide) (by decide)

def dbC4 : DB := ⟨[⟨1, 0⟩], [], []⟩

/-- Counterexample to C4 as stated: resolving a match id absent from the
store does not fail with a 404/`MatchNotFound`; the endpoint answers with
an empty winner list and count 0, leaving the state unchanged. -/
theorem C4_counterexample :
    (admin_resolve_match dbC4 5 "A" none none 10).1 ≠ ResolveHttp.not_found
    ∧ admin_resolve_match dbC4 5 "A" none none 10 = (ResolveHttp.ok [] 0, dbC4) := by
  decide

/-- C4 (amended): resolving a match id that matches no match row and no
prediction row succeeds with winners `[]` and count `0`, and every part of
the state is left unchanged. -/
theorem C4_resolve_unknown_match (db : DB) (mid : Int) (wc : String) (sa sb : Option Int)
    (rw : Int)
    (hm : ∀ m ∈ db.matchRows, m.match_id ≠ mid)
    (hp : ∀ p ∈ db.preds, p.match_id ≠ mid) :
    admin_resolve_match db mid wc sa sb rw = (ResolveHttp.ok [] 0, db) := by
  have hfetch : (db.preds.filter fun p => p.match_id == mid) = [] :=
    List.filter_eq_nil_iff.2 fun p hp' => by simp [hp p hp']
  have hwin : (resolve_match db mid wc sa sb rw).1 = [] := by
    show ((db.preds.filter fun p => p.match_id == mid).filter
      fun p => predWon p wc sa sb).map (·.user_id) = []
    rw [hfetch]
    rfl
  have husers : (resolve_match db mid wc sa sb rw).2.users = db.users := by
    show (if rw ≠ 0 ∧ (resolve_match db mid wc sa sb rw).1 ≠ [] then
        creditAll rw (resolve_match db mid wc sa sb rw).1 db.users else db.users) = db.users
    rw [if_neg (fun hc => hc.2 hwin)]
  have hmatches : (resolve_match db mid wc sa sb rw).2.matchRows = db.matchRows := by
    show db.matchRows.map (fun m =>
        if m.match_id = mid then
          { m with status := "RESOLVED", result := some wc, score_a := sa, score_b := sb }
        else m) = db.matchRows
    have hcg : db.matchRows.map (fun m =>
        if m.match_id = mid then
          { m with status := "RESOLVED", result := some wc, score_a := sa, score_b := sb }
        else m) = db.matchRows.map id :=
      List.map_congr_left fun m hm' => by rw [if_neg (hm m hm')]; rfl
    rw [hcg, List.map_id]
  have hpreds : (resolve_match db mid wc sa sb rw).2.preds = db.preds := by
    show applyGrades mid wc sa sb (db.preds.filter fun p => p.match_id == mid) db.preds
      = db.preds
    rw [hfetch]
    rfl
  have hdb : (resolve_match db mid wc sa sb rw).2 = db := by
    obtain ⟨us, ms, ps⟩ := db
    have h1 := husers
    have h2 := hmatches
    have h3 := hpreds
    cases hr : (resolve_match ⟨us, ms, ps⟩ mid wc sa sb rw).2 with
    | mk us' ms' ps' =>
      rw [hr] at h1 h2 h3
      simp only at h1 h2 h3
      rw [h1, h2, h3]
  show (ResolveHttp.ok (resolve_match db mid wc sa sb rw).1
      (resolve_match db mid wc sa sb rw).1.length, (resolve_match db mid wc sa sb rw).2)
    = (ResolveHttp.ok [] 0, db)
  rw [hwin, hdb]
  rfl

/-- Witness for the amended C4. -/
theorem C4_resolve_unknown_match_witness :
    admin_resolve_match dbC4 5 "A" none none 10 = (ResolveHttp.ok [] 0, dbC4) :=
  C4_resolve_unknown_match dbC4 5 "A" none none 10 (by decide) (by decide)

def dbC3 : DB :=
  ⟨[⟨7, 10⟩], [⟨1, "T1", "T2", "RESOLVED", some "A", some 2, some 1⟩],
   [⟨7, 1, "A", none, none, "WON"⟩]⟩

/-- C3 evaluated at the failing input: the match is already `RESOLVED` and
its single prediction already graded `WON` with the user already paid
(balance 10); a second `resolve` call re-derives the status and credits the
winner again (balance 10 → 15), so settlement is not at-most-once. -/
theorem C3_double_resolve_repays :
    matchStatus dbC3 1 = some "RESOLVED"
    ∧ (resolve_match dbC3 1 "A" (some 2) (some 1) 5).1 = [7]
    ∧ balanceOf (resolve_match dbC3 1 "A" (some 2) (some 1) 5).2 7 = 15
    ∧ (resolve_match dbC3 1 "A" (some 2) (some 1) 5).2.preds
        = [⟨7, 1, "A", none, none, "WON"⟩] := by
  decide

/-- The win test, characterised as the specification states it. -/
theorem predWon_iff (p : PredRow) (wc : String) (sa sb : Option Int) :
    predWon p wc sa sb = true ↔
      (p.prediction = wc ∨
        (p.prediction = "SCORE" ∧ sa ≠ none ∧ sb ≠ none ∧
          p.pred_score_a = sa ∧ p.pred_score_b = sb)) := by
  rw [predWon]
  by_cases h1 : p.prediction = wc
  · simp [h1]
  · by_cases h2 : p.prediction = "SCORE" ∧ sa ≠ none ∧ sb ≠ none
    · simp only [if_neg h1, if_pos h2, decide_eq_true_eq]
      constructor
      · intro hsc
        exact Or.inr ⟨h2.1, h2.2.1, h2.2.2, hsc.1, hsc.2⟩
      · intro hor
        rcases hor with hc | hc
        · exact absurd hc h1
        · exact ⟨hc.2.2.2.1, hc.2.2.2.2⟩
    · simp only [if_neg h1, if_neg h2]
      constructor
      · intro hc
        exact absurd hc (by simp)
      · intro hor
        rcases hor with hc | hc
        · exact absurd hc h1
        · exact absurd ⟨hc.1, hc.2.1, hc.2.2.1⟩ h2

/-- C1: after `resolve_match`, every prediction of the match is `WON` iff
its choice equals the winner code, or it is a `SCORE` pick with both final
scores supplied and an exactly matching stored score pair; every other
prediction of the match is `LOST` and none remains `PENDING`. -/
theorem C1_winner_determination (db : DB) (mid : Int) (wc : String) (sa sb : Option Int)
    (rw : Int)
    (h : ((db.preds.filter fun p => p.match_id == mid).map (·.user_id)).Nodup) :
    ∀ q ∈ (resolve_match db mid wc sa sb rw).2.preds, q.match_id = mid →
      ((q.status = "WON" ↔
        (q.prediction = wc ∨
          (q.prediction = "SCORE" ∧ sa ≠ none ∧ sb ≠ none ∧
            q.pred_score_a = sa ∧ q.pred_score_b = sb)))
      ∧ (q.status = "WON" ∨ q.status = "LOST")
      ∧ q.status ≠ "PENDING") := by
  intro q hq hmid
  rw [resolve_preds_eq db mid wc sa sb rw h] at hq
  rcases List.mem_map.1 hq with ⟨p, hp, hpq⟩
  by_cases hpm : p.match_id = mid
  · rw [if_pos hpm] at hpq
    subst hpq
    show ((gradeStatus p wc sa sb = "WON" ↔ _) ∧ _ ∧ _)
    rw [gradeStatus]
    cases hw : predWon p wc sa sb with
    | true =>
      rw [if_pos rfl]
      exact ⟨by simpa using (predWon_iff p wc sa sb).1 hw, Or.inl rfl,
        by show ("WON" : String) ≠ "PENDING"; decide⟩
    | false =>
      rw [if_neg (by simp)]
      refine ⟨?_, Or.inr rfl, by show ("LOST" : String) ≠ "PENDING"; decide⟩
      constructor
      · intro hc
        exact absurd hc (by show ("LOST" : String) ≠ "WON"; decide)
      · intro hor
        exact absurd ((predWon_iff p wc sa sb).2 (by simpa using hor)) (by simp [hw])
  · rw [if_neg hpm] at hpq
    subst hpq
    exact absurd hmid hpm

def dbSpec : DB :=
  ⟨[⟨1, 0⟩, ⟨2, 0⟩, ⟨3, 0⟩, ⟨4, 0⟩, ⟨5, 0⟩],
   [⟨1, "X", "Y", "CLOSED", none, none, none⟩],
   [⟨1, 1, "A", none, none, "PENDING"⟩, ⟨2, 1, "B", none, none, "PENDING"⟩,
    ⟨3, 1, "DRAW", none, none, "PENDING"⟩, ⟨4, 1, "SCORE", some 2, some 1, "PENDING"⟩,
    ⟨5, 1, "SCORE", some 1, some 1, "PENDING"⟩]⟩

def qScore11 : PredRow := ⟨5, 1, "SCORE", some 1, some 1, "LOST"⟩

/-- Witness for C1 at the specification's own scenario: the `SCORE 1-1`
prediction of the match resolved `A, 2-1` is graded `LOST` even though it
picked a side outcome; its status is terminal. -/
theorem C1_winner_determination_witness :
    (qScore11.status = "WON" ↔
      (qScore11.prediction = "A" ∨
        (qScore11.prediction = "SCORE" ∧ (some 2 : Option Int) ≠ none ∧
          (some 1 : Option Int) ≠ none ∧
          qScore11.pred_score_a = some 2 ∧ qScore11.pred_score_b = some 1)))
    ∧ (qScore11.status = "WON" ∨ qScore11.status = "LOST")
    ∧ qScore11.status ≠ "PENDING" :=
  C1_winner_determination dbSpec 1 "A" (some 2) (some 1) 10 (by decide)
    qScore11 (by decide) (by decide)

/-- C2: a single `resolve_match` call with a positive reward credits exactly
the users in the returned winner list, each exactly once by exactly the
reward amount; everybody else (in particular any user with no prediction on
the match) is untouched; the total credited is `reward × count`; and the
endpoint's `count` equals the winner list's length. -/
theorem C2_reward_conservation (db : DB) (mid : Int) (wc : String) (sa sb : Option Int)
    (rw : Int)
    (hN : ((db.preds.filter fun p => p.match_id == mid).map (·.user_id)).Nodup)
    (hU : (db.users.map (·.user_id)).Nodup)
    (hMem : ∀ p ∈ db.preds, p.match_id = mid → p.user_id ∈ db.users.map (·.user_id))
    (hrw : 0 < rw) :
    (∀ u ∈ (resolve_match db mid wc sa sb rw).1,
        balanceOf (resolve_match db mid wc sa sb rw).2 u = balanceOf db u + rw)
    ∧ (∀ u : Int, u ∉ (resolve_match db mid wc sa sb rw).1 →
        balanceOf (resolve_match db mid wc sa sb rw).2 u = balanceOf db u)
    ∧ totalCoins (resolve_match db mid wc sa sb rw).2
        = totalCoins db + rw * ((resolve_match db mid wc sa sb rw).1.length : Int)
    ∧ (∀ u : Int, (∀ p ∈ db.preds, ¬(p.match_id = mid ∧ p.user_id = u)) →
        balanceOf (resolve_match db mid wc sa sb rw).2 u = balanceOf db u)
    ∧ (admin_resolve_match db mid wc sa sb rw).1
        = ResolveHttp.ok (resolve_match db mid wc sa sb rw).1
            (resolve_match db mid wc sa sb rw).1.length := by
  have hws : (resolve_match db mid wc sa sb rw).1
      = ((db.preds.filter fun p => p.match_id == mid).filter
          fun p => predWon p wc sa sb).map (·.user_id) := rfl
  have hwsSub : ∀ u ∈ (resolve_match db mid wc sa sb rw).1, u ∈ db.users.map (·.user_id) := by
    intro u hu
    rw [hws] at hu
    rcases List.mem_map.1 hu with ⟨p, hp, hpu⟩
    have hp1 := List.mem_filter.1 hp
    have hp2 := List.mem_filter.1 hp1.1
    exact hpu ▸ hMem p hp2.1 (by simpa using hp2.2)
  have hwsPred : ∀ u ∈ (resolve_match db mid wc sa sb rw).1,
      ∃ p ∈ db.preds, p.match_id = mid ∧ p.user_id = u := by
    intro u hu
    rw [hws] at hu
    rcases List.mem_map.1 hu with ⟨p, hp, hpu⟩
    have hp1 := List.mem_filter.1 hp
    have hp2 := List.mem_filter.1 hp1.1
    exact ⟨p, hp2.1, by simpa using hp2.2, hpu⟩
  have hwsNodup : (resolve_match db mid wc sa sb rw).1.Nodup := by
    rw [hws]
    exact List.Sublist.nodup
      (List.Sublist.map (·.user_id)
        (List.filter_sublist (db.preds.filter fun p => p.match_id == mid))) hN
  have husers : (resolve_match db mid wc sa sb rw).2.users
      = creditAll rw (resolve_match db mid wc sa sb rw).1 db.users := by
    show (if rw ≠ 0 ∧ (resolve_match db mid wc sa sb rw).1 ≠ [] then
        creditAll rw (resolve_match db mid wc sa sb rw).1 db.users else db.users) = _
    by_cases hemp : (resolve_match db mid wc sa sb rw).1 = []
    · rw [if_neg (fun hc => hc.2 hemp), hemp]
      rfl
    · rw [if_pos ⟨fun hc => absurd (hc ▸ hrw) (by decide), hemp⟩]
  have hbal : ∀ u : Int, balanceOf (resolve_match db mid wc sa sb rw).2 u
      = lookupBal db.users u
        + (if u ∈ db.users.map (·.user_id) then
            rw * (((resolve_match db mid wc sa sb rw).1.count u : Nat) : Int) else 0) := by
    intro u
    rw [balanceOf_eq_lookupBal, husers, lookupBal_creditAll]
  refine ⟨?_, ?_, ?_, ?_, rfl⟩
  · intro u hu
    rw [hbal u, if_pos (hwsSub u hu),
      List.count_eq_one_of_mem hwsNodup hu, balanceOf_eq_lookupBal]
    simp
  · intro u hu
    rw [hbal u, balanceOf_eq_lookupBal]
    have hc0 : (resolve_match db mid wc sa sb rw).1.count u = 0 :=
      List.count_eq_zero.2 hu
    rw [hc0]
    simp
  · have h1 : totalCoins (resolve_match db mid wc sa sb rw).2
        = (((resolve_match db mid wc sa sb rw).2.users).map (·.coin_balance)).sum := rfl
    rw [h1, husers, totalCoins_creditAll rw _ db.users hU hwsSub]
    rfl
  · intro u hu
    have hnotin : u ∉ (resolve_match db mid wc sa sb rw).1 := by
      intro hc
      rcases hwsPred u hc with ⟨p, hp, hpm, hpu⟩
      exact hu p hp ⟨hpm, hpu⟩
    rw [hbal u, balanceOf_eq_lookupBal, List.count_eq_zero.2 hnotin]
    simp

/-- Witness for C2 at the specification's scenario: two winners, reward 10,
total coins rise by exactly `10 × 2`. -/
theorem C2_reward_conservation_witness :
    totalCoins (resolve_match dbSpec 1 "A" (some 2) (some 1) 10).2
      = totalCoins dbSpec + 10 * ((resolve_match dbSpec 1 "A" (some 2) (some 1) 10).1.length : Int) :=
  (C2_reward_conservation dbSpec 1 "A" (some 2) (some 1) 10
    (by decide) (by decide) (by decide) (by decide)).2.2.1

/-! ### Global coin ranking -/

theorem coinLe_trans : ∀ a b c : UserRow,
    coinLe a b = true → coinLe b c = true → coinLe a c = true := by
  intro a b c hab hbc
  simp only [coinLe, decide_eq_true_eq] at hab hbc ⊢
  rcases hab with h1 | ⟨h1, h1'⟩ <;> rcases hbc with h2 | ⟨h2, h2'⟩
  · exact Or.inl (lt_trans h2 h1)
  · exact Or.inl (h2 ▸ h1)
  · exact Or.inl (h1.symm ▸ h2)
  · exact Or.inr ⟨h1.trans h2, le_trans h1' h2'⟩

theorem coinLe_total : ∀ a b : UserRow, (coinLe a b || coinLe b a) = true := by
  intro a b
  simp only [coinLe, Bool.or_eq_true, decide_eq_true_eq]
  rcases lt_trichotomy a.coin_balance b.coin_balance with h | h | h
  · exact Or.inr (Or.inl h)
  · rcases le_total a.user_id b.user_id with h2 | h2
    · exact Or.inl (Or.inr ⟨h, h2⟩)
    · exact Or.inr (Or.inr ⟨h.symm, h2⟩)
  · exact Or.inl (Or.inl h)

theorem global_items_map_user_id (db : DB) (pg limit : Nat) (uid : Option Int) :
    (get_leaderboard_global db pg limit uid).items.map (fun it => it.user_id)
      = (((globalOrder db).map (·.user_id)).drop ((pg - 1) * limit)).take limit := by
  have h0 : (get_leaderboard_global db pg limit uid).items.map (fun it => it.user_id)
      = ((((globalOrder db).drop ((pg - 1) * limit)).take limit).enum.map
          (fun e => (⟨(pg - 1) * limit + e.1 + 1, e.2.user_id, e.2.coin_balance⟩
            : GlobalItem))).map (fun it => it.user_id) := rfl
  rw [h0, List.map_map]
  have h1 : ((fun it : GlobalItem => it.user_id) ∘
      (fun e : Nat × UserRow =>
        (⟨(pg - 1) * limit + e.1 + 1, e.2.user_id, e.2.coin_balance⟩ : GlobalItem)))
      = (fun v : UserRow => v.user_id) ∘ Prod.snd := rfl
  rw [h1, ← List.map_map, List.enum_map_snd, List.map_take, List.map_drop]

/-- C7: the global leaderboard orders all users by coin balance descending
with ties broken by user id ascending; page `p` with limit `l` is exactly
the slice of that order at offset `(p-1)*l`; consecutive pages concatenate
to the contiguous slice of double length (no overlap, no gap); and the
caller's reported rank is one plus the number of users with strictly
greater balance, independent of the requested page. -/
theorem C7_global_ranking (db : DB) (page limit : Nat) (u : Int)
    (hpage : 1 ≤ page) (hu : u ∈ db.users.map (·.user_id)) (hu0 : u ≠ 0) :
    (globalOrder db).Perm db.users
    ∧ (globalOrder db).Pairwise (fun a b =>
        b.coin_balance < a.coin_balance ∨
          (a.coin_balance = b.coin_balance ∧ a.user_id ≤ b.user_id))
    ∧ ((get_leaderboard_global db page limit (some u)).items.map (fun it => it.user_id)
        = (((globalOrder db).map (·.user_id)).drop ((page - 1) * limit)).take limit)
    ∧ ((get_leaderboard_global db page limit (some u)).items.map (fun it => it.user_id)
        ++ (get_leaderboard_global db (page + 1) limit (some u)).items.map (fun it => it.user_id)
        = (((globalOrder db).map (·.user_id)).drop ((page - 1) * limit)).take (2 * limit))
    ∧ ((get_leaderboard_global db page limit (some u)).current_user_rank
        = some ((db.users.filter fun v => balanceOf db u < v.coin_balance).length + 1)) := by
  refine ⟨List.mergeSort_perm db.users coinLe, ?_, global_items_map_user_id db page limit (some u), ?_, ?_⟩
  · exact (List.sorted_mergeSort coinLe_trans coinLe_total db.users).imp
      (fun h => by simpa [coinLe, decide_eq_true_eq] using h)
  · rw [global_items_map_user_id, global_items_map_user_id]
    have hp1 : page - 1 + 1 = page := by omega
    have harith : (page + 1 - 1) * limit = (page - 1) * limit + limit := by
      calc (page + 1 - 1) * limit = page * limit := by rw [Nat.add_sub_cancel]
        _ = ((page - 1) + 1) * limit := by rw [hp1]
        _ = (page - 1) * limit + limit := by rw [Nat.add_mul, one_mul]
    rw [harith, two_mul, List.take_add, ← List.drop_drop]
  · have hnil : db.users ≠ [] := by
      rcases List.mem_map.1 hu with ⟨x, hx, _⟩
      exact List.ne_nil_of_mem hx
    have hne : db.users.length ≠ 0 := fun hlen => hnil (List.length_eq_zero.1 hlen)
    show (if u = 0 then none
        else if db.users.length = 0 then none
        else some ((db.users.filter fun v => balanceOf db u < v.coin_balance).length + 1))
      = some ((db.users.filter fun v => balanceOf db u < v.coin_balance).length + 1)
    rw [if_neg hu0, if_neg hne]

/-- Witness for C7: on a concrete snapshot the reported rank of user 1 is
the strictly-greater-balance count plus one. -/
theorem C7_global_ranking_witness :
    (get_leaderboard_global dbSpec 1 2 (some 1)).current_user_rank
      = some ((dbSpec.users.filter fun v => balanceOf dbSpec 1 < v.coin_balance).length + 1) :=
  (C7_global_ranking dbSpec 1 2 1 (by decide) (by decide) (by decide)).2.2.2.2

/-! ### Prediction win-rate ranking -/

theorem predLe_trans (db : DB) : ∀ a b c : Int,
    predLe db a b = true → predLe db b c = true → predLe db a c = true := by
  intro a b c hab hbc
  simp only [predLe, decide_eq_true_eq] at hab hbc ⊢
  rcases hab with h1 | ⟨h1, h1'⟩ <;> rcases hbc with h2 | ⟨h2, h2'⟩
  · exact Or.inl (lt_trans h2 h1)
  · exact Or.inl (h2 ▸ h1)
  · exact Or.inl (h1.symm ▸ h2)
  · refine Or.inr ⟨h1.trans h2, ?_⟩
    rcases h1' with h3 | ⟨h3, h4⟩ <;> rcases h2' with h5 | ⟨h5, h6⟩
    · exact Or.inl (lt_trans h5 h3)
    · exact Or.inl (h5 ▸ h3)
    · exact Or.inl (h3.symm ▸ h5)
    · exact Or.inr ⟨h3.trans h5, le_trans h4 h6⟩

theorem predLe_total (db : DB) : ∀ a b : Int,
    (predLe db a b || predLe db b a) = true := by
  intro a b
  simp only [predLe, Bool.or_eq_true, decide_eq_true_eq]
  rcases lt_trichotomy (rateOf db a) (rateOf db b) with h | h | h
  · exact Or.inr (Or.inl h)
  · rcases lt_trichotomy (settledOf db a) (settledOf db b) with h2 | h2 | h2
    · exact Or.inr (Or.inr ⟨h.symm, Or.inl h2⟩)
    · rcases le_total a b with h3 | h3
      · exact Or.inl (Or.inr ⟨h, Or.inr ⟨h2, h3⟩⟩)
      · exact Or.inr (Or.inr ⟨h.symm, Or.inr ⟨h2.symm, h3⟩⟩)
    · exact Or.inl (Or.inr ⟨h, Or.inl h2⟩)
  · exact Or.inl (Or.inl h)

theorem mem_settled_pred_users (db : DB) (v : Int) (h : 0 < settledOf db v) :
    v ∈ settled_pred_users db := by
  rw [settledOf] at h
  have hnil : (db.preds.filter fun p => p.user_id == v && isSettled p) ≠ [] := by
    intro hc
    rw [hc] at h
    exact absurd h (by decide)
  rcases List.exists_mem_of_ne_nil _ hnil with ⟨p, hp⟩
  have hp' := List.mem_filter.1 hp
  have hpv : p.user_id = v := by
    have := hp'.2
    simp only [Bool.and_eq_true, beq_iff_eq] at this
    exact this.1
  have hps : isSettled p = true := by
    have := hp'.2
    simp only [Bool.and_eq_true] at this
    exact this.2
  exact List.mem_dedup.2 (hpv ▸ List.mem_map_of_mem (·.user_id)
    (List.mem_filter.2 ⟨hp'.1, hps⟩))

theorem mem_settled_pred_users_sub (db : DB) (v : Int)
    (hMem : ∀ p ∈ db.preds, p.user_id ∈ db.users.map (·.user_id))
    (hv : v ∈ settled_pred_users db) : v ∈ db.users.map (·.user_id) := by
  rcases List.mem_map.1 (List.mem_dedup.1 hv) with ⟨p, hp, hpv⟩
  exact hpv ▸ hMem p (List.mem_filter.1 hp).1

/-- The rank subquery (grouping predictions only) and the board's user set
(users joined to predictions) count the same higher-ranked users, given
referential integrity and distinct user ids. -/
theorem rank_count_eq (db : DB) (r : ℚ) (t : Nat)
    (hN : (db.users.map (·.user_id)).Nodup)
    (hMem : ∀ p ∈ db.preds, p.user_id ∈ db.users.map (·.user_id)) :
    ((settled_pred_users db).filter fun v =>
        decide (3 ≤ settledOf db v) &&
        decide (r < rateOf db v ∨ (rateOf db v = r ∧ t < settledOf db v))).length
      = ((db.users.map (·.user_id)).filter fun v =>
          decide (3 ≤ settledOf db v) &&
          decide (r < rateOf db v ∨ (rateOf db v = r ∧ t < settledOf db v))).length := by
  apply List.Perm.length_eq
  apply (List.perm_ext_iff_of_nodup
    (List.Nodup.filter _ (List.nodup_dedup _))
    (List.Nodup.filter _ hN)).2
  intro v
  simp only [List.mem_filter, Bool.and_eq_true, decide_eq_true_eq]
  constructor
  · rintro ⟨hv, hcond⟩
    exact ⟨mem_settled_pred_users_sub db v hMem hv, hcond⟩
  · rintro ⟨hv, hcond⟩
    exact ⟨mem_settled_pred_users db v (lt_of_lt_of_le (by decide) hcond.1), hcond⟩

/-- C8: the win-rate leaderboard's ordered user list contains exactly the
users with at least 3 settled predictions (2 settled never appear, 3 do),
ordered by win rate descending, then total settled descending, then user id
ascending; an eligible caller's rank is one plus the number of eligible
users strictly ahead of them, and an ineligible caller gets no rank. -/
theorem C8_prediction_ranking (db : DB) (u : Int)
    (hN : (db.users.map (·.user_id)).Nodup)
    (hMem : ∀ p ∈ db.preds, p.user_id ∈ db.users.map (·.user_id)) :
    (∀ v : Int, v ∈ predOrder db ↔
        (v ∈ db.users.map (·.user_id) ∧ 3 ≤ settledOf db v))
    ∧ (∀ v : Int, settledOf db v = 2 → v ∉ predOrder db)
    ∧ (∀ v : Int, v ∈ db.users.map (·.user_id) → settledOf db v = 3 → v ∈ predOrder db)
    ∧ (predOrder db).Pairwise (fun a b =>
        rateOf db b < rateOf db a ∨
          (rateOf db a = rateOf db b ∧
            (settledOf db b < settledOf db a ∨
              (settledOf db a = settledOf db b ∧ a ≤ b))))
    ∧ (∀ page limit : Nat, u ≠ 0 → 3 ≤ settledOf db u →
        (get_leaderboard_predictions db page limit (some u)).current_user_rank
          = some (((db.users.map (·.user_id)).filter fun v =>
              decide (3 ≤ settledOf db v) &&
              decide (rateOf db u < rateOf db v ∨
                (rateOf db v = rateOf db u ∧ settledOf db u < settledOf db v))).length + 1))
    ∧ (∀ page limit : Nat, settledOf db u < 3 →
        (get_leaderboard_predictions db page limit (some u)).current_user_rank = none) := by
  have hmem : ∀ v : Int, v ∈ predOrder db ↔
      (v ∈ db.users.map (·.user_id) ∧ 3 ≤ settledOf db v) := by
    intro v
    rw [predOrder]
    rw [(List.mergeSort_perm (eligible_users db) (predLe db)).mem_iff]
    rw [eligible_users, List.mem_filter]
    simp only [decide_eq_true_eq]
  refine ⟨hmem, ?_, ?_, ?_, ?_, ?_⟩
  · intro v hv hmem'
    have := (hmem v).1 hmem'
    omega
  · intro v hv hset
    exact (hmem v).2 ⟨hv, by omega⟩
  · exact (List.sorted_mergeSort (predLe_trans db) (predLe_total db)
      (eligible_users db)).imp
      (fun h => by simpa [predLe, decide_eq_true_eq] using h)
  · intro page limit hu0 hset
    show (if u = 0 then none
        else if 3 ≤ settledOf db u then
          some (((settled_pred_users db).filter fun v =>
            decide (3 ≤ settledOf db v) &&
            decide (rateOf db u < rateOf db v ∨
              (rateOf db v = rateOf db u ∧ settledOf db u < settledOf db v))).length + 1)
        else none)
      = _
    rw [if_neg hu0, if_pos hset,
      rank_count_eq db (rateOf db u) (settledOf db u) hN hMem]
  · intro page limit hset
    by_cases hu0 : u = 0
    · show (if u = 0 then none else _) = none
      rw [if_pos hu0]
    · show (if u = 0 then none
          else if 3 ≤ settledOf db u then
            some (((settled_pred_users db).filter fun v =>
              decide (3 ≤ settledOf db v) &&
              decide (rateOf db u < rateOf db v ∨
                (rateOf db v = rateOf db u ∧ settledOf db u < settledOf db v))).length + 1)
          else none)
        = none
      rw [if_neg hu0, if_neg (by omega)]

def dbC8 : DB :=
  ⟨[⟨1, 0⟩, ⟨2, 0⟩],
   [⟨1, "a", "b", "RESOLVED", some "A", none, none⟩],
   [⟨1, 1, "A", none, none, "WON"⟩, ⟨1, 2, "A", none, none, "WON"⟩,
    ⟨1, 3, "A", none, none, "LOST"⟩,
    ⟨2, 1, "B", none, none, "WON"⟩, ⟨2, 2, "B", none, none, "LOST"⟩]⟩

/-- Witness for C8: user 1 has exactly 3 settled predictions and receives
the computed rank on a concrete snapshot. -/
theorem C8_prediction_ranking_witness :
    (get_leaderboard_predictions dbC8 1 10 (some 1)).current_user_rank
      = some (((dbC8.users.map (·.user_id)).filter fun v =>
          decide (3 ≤ settledOf dbC8 v) &&
          decide (rateOf dbC8 1 < rateOf dbC8 v ∨
            (rateOf dbC8 v = rateOf dbC8 1 ∧ settledOf dbC8 1 < settledOf dbC8 v))).length + 1) :=
  (C8_prediction_ranking dbC8 1 (by decide) (by decide)).2.2.2.2.1 1 10
    (by decide) (by decide)
